import Mathlib

/-!
Shallow embedding of the action-rule evaluation and dispatch engine of
hasher-matcher-actioner (hmalib), covering:

  - hmalib/lambdas/actions/action_evaluator.py
    (action_rule_applies_to_classifications, get_actions_to_take,
     remove_superseded_actions, get_actions, threat_exchange_reacting_is_enabled,
     get_threat_exchange_reaction_labels, lambda_handler)
  - hmalib/common/actioner_models.py
    (WebhookActionPerformer and its POST/GET/PUT/DELETE variants)

Python sets of labels become Finset Label; the Python dict from ActionLabel to
lists of ActionRule becomes an insertion-ordered association list, with update
and lookup functions mirroring dict semantics; raised exceptions become Except.
-/

namespace Hmalib

/-- Modelled from the spec: hmalib.common.classification_models is not under
src. The spec describes a Label as an opaque comparable tag with string-valued
identity, where equality and set membership are the only operations required. -/
structure Label where
  value : String
deriving DecidableEq, Repr

/-- Modelled from the spec: ActionLabel is the Label subtype identifying a
named action, used as the key of the action map. -/
structure ActionLabel where
  value : String
deriving DecidableEq, Repr

/-- Modelled from the spec together with the constructor calls in
action_evaluator.py: an ActionRule holds a name, an action label, a set of
labels that must all be present, and a set of labels none of which may be
present. -/
structure ActionRule where
  name : String
  action_label : ActionLabel
  must_have_labels : Finset Label
  must_not_have_labels : Finset Label
deriving DecidableEq

/-- Modelled from the spec together with the constructor call in get_actions:
an Action carries the resolution metadata for an action label: a priority
(lower value means more important) and the list of action labels that
supersede it. -/
structure Action where
  action_label : ActionLabel
  priority : Nat
  superseded_by : List ActionLabel
deriving DecidableEq

/-- Modelled from the spec: a BankedSignal is a record of signal id, bank id
and bank source plus a set of classification labels; the evaluator only reads
the classification set. -/
structure BankedSignal where
  signal_id : String
  bank_id : String
  bank_source : String
  classifications : Finset Label
deriving DecidableEq

/-- Modelled from the spec: a MatchMessage carries a content key, a content
hash and the ordered sequence of banked signals that matched. -/
structure MatchMessage where
  content_key : String
  content_hash : String
  matching_banked_signals : List BankedSignal
deriving DecidableEq

/-- Embeds action_rule_applies_to_classifications: the rule applies iff its
must_have_labels are a subset of the classifications and its
must_not_have_labels are disjoint from the classifications. -/
def action_rule_applies_to_classifications
    (action_rule : ActionRule) (classifications : Finset Label) : Bool :=
  decide (action_rule.must_have_labels ⊆ classifications)
    && decide (Disjoint action_rule.must_not_have_labels classifications)

/-- The Python dict from ActionLabel to lists of ActionRule, as an
insertion-ordered association list without duplicate keys. -/
abbrev ActionDict := List (ActionLabel × List ActionRule)

/-- Embeds the dict update in get_actions_to_take: if the key is present,
append the rule to its list; otherwise insert the key with a singleton list
at the end (Python dicts preserve insertion order). -/
def dictAppendEntry (m : ActionDict) (k : ActionLabel) (r : ActionRule) :
    ActionDict :=
  match m with
  | [] => [(k, [r])]
  | (k0, l0) :: rest =>
      if k0 = k then (k0, l0 ++ [r]) :: rest
      else (k0, l0) :: dictAppendEntry rest k r

/-- Dict lookup with default empty list, used to state properties of the
association list. -/
def dictGet (m : ActionDict) (k : ActionLabel) : List ActionRule :=
  match m with
  | [] => []
  | (k0, l0) :: rest => if k0 = k then l0 else dictGet rest k

/-- Embeds the inner loop of get_actions_to_take: fold one banked signal over
the configured rules, adding each rule that applies under its action label. -/
def evaluate_signal (banked_signal : BankedSignal) (m : ActionDict)
    (action_rules : List ActionRule) : ActionDict :=
  match action_rules with
  | [] => m
  | action_rule :: rest =>
      evaluate_signal banked_signal
        (if action_rule_applies_to_classifications action_rule
            banked_signal.classifications
         then dictAppendEntry m action_rule.action_label action_rule
         else m)
        rest

/-- Embeds the outer loop of get_actions_to_take over the matching banked
signals of the message. -/
def evaluate_signals (signals : List BankedSignal)
    (action_rules : List ActionRule) (m : ActionDict) : ActionDict :=
  match signals with
  | [] => m
  | banked_signal :: rest =>
      evaluate_signals rest action_rules
        (evaluate_signal banked_signal m action_rules)

/-- Embeds remove_superseded_actions: the source is a TODO stub that returns
its input dict unchanged. -/
def remove_superseded_actions (action_label_to_action_rules : ActionDict) :
    ActionDict :=
  action_label_to_action_rules

/-- Embeds get_actions: the source returns a hard-coded catalog of one
Action. -/
def get_actions : List Action :=
  [⟨⟨"EnqueueForReview"⟩, 1, [⟨"A_MORE_IMPORTANT_ACTION"⟩]⟩]

/-- Embeds get_actions_to_take: build the dict of applicable rules per action
label over every (signal, rule) pair, then pass it through
remove_superseded_actions. -/
def get_actions_to_take (match_message : MatchMessage)
    (action_rules : List ActionRule) : ActionDict :=
  remove_superseded_actions
    (evaluate_signals match_message.matching_banked_signals action_rules [])

/-- Embeds threat_exchange_reacting_is_enabled: the source is a TODO stub that
always returns true. -/
def threat_exchange_reacting_is_enabled (_match_message : MatchMessage) : Bool :=
  true

/-- Embeds get_threat_exchange_reaction_labels: the source is a TODO stub that
returns the single hard-coded reaction label SAW_THIS_TOO. -/
def get_threat_exchange_reaction_labels (_match_message : MatchMessage)
    (_action_labels : List ActionLabel) : List Label :=
  [⟨"SAW_THIS_TOO"⟩]

/-- A message sent to an outbound queue by lambda_handler: either an
ActionMessage built from the match message, an action label and its rules, or
a ReactionMessage built from the match message and a reaction label. -/
inductive EmittedMessage where
  | action (match_message : MatchMessage) (action_label : ActionLabel)
      (action_rules : List ActionRule)
  | reaction (match_message : MatchMessage) (reaction_label : Label)
deriving DecidableEq

/-- Embeds the body of the record loop of lambda_handler: evaluate the match
message, send one ActionMessage per resolved action label, then, when
reacting is enabled, send one ReactionMessage per reaction label. -/
def lambda_handler_record (action_rules : List ActionRule)
    (match_message : MatchMessage) : List EmittedMessage :=
  let action_label_to_action_rules := get_actions_to_take match_message action_rules
  let action_messages := action_label_to_action_rules.map
    (fun p => EmittedMessage.action match_message p.1 p.2)
  let reaction_messages :=
    if threat_exchange_reacting_is_enabled match_message then
      (get_threat_exchange_reaction_labels match_message
        (action_label_to_action_rules.map Prod.fst)).map
        (fun l => EmittedMessage.reaction match_message l)
    else []
  action_messages ++ reaction_messages

/-- Embeds lambda_handler on a batch of records. A record is some match
message when its body parses, and none when it is malformed, in which case
json.loads raises inside the loop: the messages emitted for earlier records
have already been sent, no later record is processed, and the handler does
not reach its final return. The boolean records whether the loop ran to
completion. -/
def lambda_handler (action_rules : List ActionRule)
    (records : List (Option MatchMessage)) : List EmittedMessage × Bool :=
  match records with
  | [] => ([], true)
  | none :: _ => ([], false)
  | some match_message :: rest =>
      let r := lambda_handler action_rules rest
      (lambda_handler_record action_rules match_message ++ r.1, r.2)

/-- HTTP method of a webhook performer variant. -/
inductive HttpMethod where
  | POST
  | GET
  | PUT
  | DELETE
deriving DecidableEq

/-- An outbound HTTP request: method, target url, optional body. -/
structure HttpRequest where
  method : HttpMethod
  url : String
  body : Option String
deriving DecidableEq

/-- Modelled from the spec: the response object returned by the requests
library, of which only the status code is relevant here. A non-success status
does not raise. -/
structure Response where
  status_code : Nat
deriving DecidableEq

/-- Outcome of one HTTP call: either a returned response of any status, or a
raised network error. -/
inductive HttpOutcome where
  | response (r : Response)
  | raised (e : String)
deriving DecidableEq

/-- The environment of the HTTP dispatch: what the outside world does for a
given request. -/
def Network : Type := HttpRequest → HttpOutcome

/-- Embeds the WebhookPostActionPerformer dataclass: name and url. -/
structure WebhookPostActionPerformer where
  name : String
  url : String
deriving DecidableEq

/-- Embeds the WebhookGetActionPerformer dataclass: name and url. -/
structure WebhookGetActionPerformer where
  name : String
  url : String
deriving DecidableEq

/-- Embeds the WebhookPutActionPerformer dataclass: name and url. -/
structure WebhookPutActionPerformer where
  name : String
  url : String
deriving DecidableEq

/-- Embeds the WebhookDeleteActionPerformer dataclass: name and url. -/
structure WebhookDeleteActionPerformer where
  name : String
  url : String
deriving DecidableEq

/-- Embeds WebhookPostActionPerformer.call: one POST to the configured url
with the given data as body. Returns the requests made and the outcome. -/
def WebhookPostActionPerformer.call (net : Network)
    (p : WebhookPostActionPerformer) (data : String) :
    List HttpRequest × HttpOutcome :=
  ([⟨HttpMethod.POST, p.url, some data⟩],
    net ⟨HttpMethod.POST, p.url, some data⟩)

/-- Embeds WebhookGetActionPerformer.call: one GET to the configured url, the
data argument is ignored and no body is sent. -/
def WebhookGetActionPerformer.call (net : Network)
    (p : WebhookGetActionPerformer) (_data : String) :
    List HttpRequest × HttpOutcome :=
  ([⟨HttpMethod.GET, p.url, none⟩], net ⟨HttpMethod.GET, p.url, none⟩)

/-- Embeds WebhookPutActionPerformer.call: one PUT to the configured url with
the given data as body. -/
def WebhookPutActionPerformer.call (net : Network)
    (p : WebhookPutActionPerformer) (data : String) :
    List HttpRequest × HttpOutcome :=
  ([⟨HttpMethod.PUT, p.url, some data⟩],
    net ⟨HttpMethod.PUT, p.url, some data⟩)

/-- Embeds WebhookDeleteActionPerformer.call: one DELETE to the configured
url, the data argument is ignored and no body is sent. -/
def WebhookDeleteActionPerformer.call (net : Network)
    (p : WebhookDeleteActionPerformer) (_data : String) :
    List HttpRequest × HttpOutcome :=
  ([⟨HttpMethod.DELETE, p.url, none⟩], net ⟨HttpMethod.DELETE, p.url, none⟩)

/-- Embeds WebhookActionPerformer.perform_action, shared by all variants: it
calls self.call on the serialized match message, returns None and discards
the Response object; a raised error propagates. The serializer stands for
json.dumps composed with MatchMessage.to_aws, which lives outside src. -/
def WebhookActionPerformer.perform_action
    (call : String → List HttpRequest × HttpOutcome)
    (to_aws_json : MatchMessage → String) (match_message : MatchMessage) :
    List HttpRequest × Except String Unit :=
  let r := call (to_aws_json match_message)
  (r.1,
    match r.2 with
    | HttpOutcome.response _ => Except.ok ()
    | HttpOutcome.raised e => Except.error e)

/-- The inherited perform_action of the POST variant. -/
def WebhookPostActionPerformer.perform_action (net : Network)
    (p : WebhookPostActionPerformer) (to_aws_json : MatchMessage → String)
    (match_message : MatchMessage) : List HttpRequest × Except String Unit :=
  WebhookActionPerformer.perform_action (p.call net) to_aws_json match_message

/-- The inherited perform_action of the GET variant. -/
def WebhookGetActionPerformer.perform_action (net : Network)
    (p : WebhookGetActionPerformer) (to_aws_json : MatchMessage → String)
    (match_message : MatchMessage) : List HttpRequest × Except String Unit :=
  WebhookActionPerformer.perform_action (p.call net) to_aws_json match_message

/-- The inherited perform_action of the PUT variant. -/
def WebhookPutActionPerformer.perform_action (net : Network)
    (p : WebhookPutActionPerformer) (to_aws_json : MatchMessage → String)
    (match_message : MatchMessage) : List HttpRequest × Except String Unit :=
  WebhookActionPerformer.perform_action (p.call net) to_aws_json match_message

/-- The inherited perform_action of the DELETE variant. -/
def WebhookDeleteActionPerformer.perform_action (net : Network)
    (p : WebhookDeleteActionPerformer) (to_aws_json : MatchMessage → String)
    (match_message : MatchMessage) : List HttpRequest × Except String Unit :=
  WebhookActionPerformer.perform_action (p.call net) to_aws_json match_message

/-- Well-formedness of the action dict: every stored list is non-empty and
every rule in the list carried by a key has that key as its action label. -/
def dictWF (m : ActionDict) : Prop :=
  ∀ p ∈ m, p.2 ≠ ([] : List ActionRule) ∧ ∀ r ∈ p.2, r.action_label = p.1

/-- Concrete rule used by the evaluation witnesses: must have C1, must not
have C3. -/
def arW : ActionRule :=
  ⟨"enqueue mini castle for review", ⟨"EnqueueMiniCastleForReview"⟩,
    {⟨"C1"⟩}, {⟨"C3"⟩}⟩

/-- Concrete match message used by the evaluation witnesses: two banked
signals that both satisfy arW. -/
def mmW : MatchMessage :=
  ⟨"key", "hash",
    [⟨"s1", "bank", "te", {⟨"C1"⟩, ⟨"C2"⟩}⟩, ⟨"s2", "bank", "te", {⟨"C1"⟩}⟩]⟩

/-- Concrete match message for the batch scenario: one banked signal that
satisfies arW. -/
def mm3W : MatchMessage :=
  ⟨"key3", "hash3", [⟨"s3", "bank", "te", {⟨"C1"⟩}⟩]⟩

/-- Catalog entry A of the supersession scenario: priority 1, superseded by
nothing. -/
def actionA : Action := ⟨⟨"A"⟩, 1, []⟩

/-- Catalog entry B of the supersession scenario: priority 2, superseded by
A. -/
def actionB : Action := ⟨⟨"B"⟩, 2, [⟨"A"⟩]⟩

/-- A rule triggering action label A. -/
def ruleA : ActionRule := ⟨"rule A", ⟨"A"⟩, ∅, ∅⟩

/-- A rule triggering action label B. -/
def ruleB : ActionRule := ⟨"rule B", ⟨"B"⟩, ∅, ∅⟩

/-- A network on which every request returns status 200. -/
def net200 : Network := fun _ => HttpOutcome.response ⟨200⟩

/-- A network on which every request returns status 500. -/
def net500 : Network := fun _ => HttpOutcome.response ⟨500⟩

/-- A network on which every request raises a connection error. -/
def netRaise : Network := fun _ => HttpOutcome.raised "connection refused"

/-- A concrete POST performer configuration. -/
def postW : WebhookPostActionPerformer :=
  ⟨"NotifyWebhook", "https://example.test/hook"⟩

/-- A concrete serializer standing for json.dumps of MatchMessage.to_aws. -/
def to_aws_jsonW : MatchMessage → String := fun _ => "serialized match message"

end Hmalib

namespace Hmalib

/-- Appending under a key extends exactly the list stored at that key. -/
lemma dictGet_appendEntry_self (m : ActionDict) (k : ActionLabel) (r : ActionRule) :
    dictGet (dictAppendEntry m k r) k = dictGet m k ++ [r] := by
  induction m with
  | nil => simp [dictAppendEntry, dictGet]
  | cons p rest ih =>
      obtain ⟨k0, l0⟩ := p
      by_cases h : k0 = k
      · subst h; simp [dictAppendEntry, dictGet]
      · simp [dictAppendEntry, dictGet, h, ih]

/-- Appending under a key leaves every other key unchanged. -/
lemma dictGet_appendEntry_ne (m : ActionDict) {k q : ActionLabel} (r : ActionRule)
    (h : q ≠ k) : dictGet (dictAppendEntry m k r) q = dictGet m q := by
  induction m with
  | nil => simp [dictAppendEntry, dictGet, Ne.symm h]
  | cons p rest ih =>
      obtain ⟨k0, l0⟩ := p
      by_cases h0 : k0 = k
      · subst h0; simp [dictAppendEntry, dictGet, Ne.symm h]
      · by_cases hq : k0 = q
        · subst hq
          simp [dictAppendEntry, dictGet, h0]
        · simp [dictAppendEntry, dictGet, h0, hq, ih]

/-- One signal adds the rule ar to the list under its action label once per
occurrence of ar among the rules, exactly when ar applies to the signal. -/
lemma count_evaluate_signal (bs : BankedSignal) (ar : ActionRule) :
    ∀ (rs : List ActionRule) (m : ActionDict),
    ((dictGet (evaluate_signal bs m rs) ar.action_label).count ar)
      = (dictGet m ar.action_label).count ar
        + (if action_rule_applies_to_classifications ar bs.classifications
           then rs.count ar else 0) := by
  intro rs
  induction rs with
  | nil => intro m; simp [evaluate_signal]
  | cons r rest ih =>
      intro m
      rw [evaluate_signal, ih]
      by_cases hr : r = ar
      · subst hr
        by_cases ha : action_rule_applies_to_classifications r bs.classifications
        · simp [ha, dictGet_appendEntry_self, List.count_append, List.count_cons]
          omega
        · simp [ha, List.count_cons]
      · have hcount : (r :: rest).count ar = rest.count ar := by
          simp [List.count_cons, hr]
        rw [hcount]
        by_cases ha : action_rule_applies_to_classifications r bs.classifications
        · by_cases hlab : ar.action_label = r.action_label
          · rw [ha, if_pos rfl, hlab, dictGet_appendEntry_self, List.count_append]
            have hnot : ar ∉ [r] := by
              simp only [List.mem_singleton]
              exact fun hh => hr hh.symm
            rw [List.count_eq_zero_of_not_mem hnot]
            simp
          · rw [ha, if_pos rfl, dictGet_appendEntry_ne _ _ hlab]
        · simp [ha]

/-- Over all signals of the message, the rule ar lands under its action label
once per occurrence in the rule list and per signal it applies to. -/
lemma count_evaluate_signals (ar : ActionRule) (rs : List ActionRule) :
    ∀ (signals : List BankedSignal) (m : ActionDict),
    ((dictGet (evaluate_signals signals rs m) ar.action_label).count ar)
      = (dictGet m ar.action_label).count ar
        + rs.count ar
          * signals.countP
              (fun bs =>
                action_rule_applies_to_classifications ar bs.classifications) := by
  intro signals
  induction signals with
  | nil => intro m; simp [evaluate_signals]
  | cons bs rest ih =>
      intro m
      rw [evaluate_signals, ih, count_evaluate_signal, List.countP_cons]
      by_cases ha : action_rule_applies_to_classifications ar bs.classifications
      · simp only [ha, if_pos rfl, if_true]
        ring
      · simp [ha]

/-- C1: action_rule_applies_to_classifications returns true exactly when every
label in must_have_labels is among the classifications and no label in
must_not_have_labels is among the classifications. -/
theorem action_rule_applies_iff_subset_disjoint
    (action_rule : ActionRule) (classifications : Finset Label) :
    action_rule_applies_to_classifications action_rule classifications = true ↔
      ((∀ l ∈ action_rule.must_have_labels, l ∈ classifications)
        ∧ ∀ l ∈ action_rule.must_not_have_labels, l ∉ classifications) := by
  unfold action_rule_applies_to_classifications
  simp [Finset.subset_iff, Finset.disjoint_left]

/-- C6: a rule whose must_have_labels and must_not_have_labels overlap can
never fire: action_rule_applies_to_classifications returns false on every set
of classifications. -/
theorem contradictory_rule_never_fires
    (action_rule : ActionRule) (classifications : Finset Label)
    (h : (action_rule.must_have_labels ∩ action_rule.must_not_have_labels).Nonempty) :
    action_rule_applies_to_classifications action_rule classifications = false := by
  obtain ⟨l, hl⟩ := h
  rw [Finset.mem_inter] at hl
  unfold action_rule_applies_to_classifications
  rw [Bool.and_eq_false_iff]
  by_cases hsub : action_rule.must_have_labels ⊆ classifications
  · right
    simp only [decide_eq_false_iff_not]
    intro hdis
    exact (Finset.disjoint_left.mp hdis hl.2) (hsub hl.1)
  · left
    simp only [decide_eq_false_iff_not]
    exact hsub

/-- Witness for C6: a concrete rule whose two label sets share the label C3,
evaluated on a concrete classification set, does not fire. -/
theorem contradictory_rule_never_fires_witness :
    action_rule_applies_to_classifications
      ⟨"r", ⟨"A"⟩, {⟨"C1"⟩, ⟨"C3"⟩}, {⟨"C3"⟩}⟩ {⟨"C1"⟩, ⟨"C3"⟩} = false :=
  contradictory_rule_never_fires
    ⟨"r", ⟨"A"⟩, {⟨"C1"⟩, ⟨"C3"⟩}, {⟨"C3"⟩}⟩ {⟨"C1"⟩, ⟨"C3"⟩} (by decide)

/-- C2: when the rule ar occurs exactly once in the configured rule list, the
list stored under its action label in the result of get_actions_to_take
contains ar once per banked signal of the message that satisfies it, so a
message with two satisfying signals yields the rule twice, appended and not
deduplicated, and every (signal, rule) pair contributes independently. -/
theorem get_actions_to_take_rule_once_per_satisfying_signal
    (match_message : MatchMessage) (action_rules : List ActionRule)
    (ar : ActionRule) (h : action_rules.count ar = 1) :
    ((dictGet (get_actions_to_take match_message action_rules)
        ar.action_label).count ar)
      = match_message.matching_banked_signals.countP
          (fun bs =>
            action_rule_applies_to_classifications ar bs.classifications) := by
  unfold get_actions_to_take remove_superseded_actions
  rw [count_evaluate_signals]
  simp [dictGet, h]

/-- Witness for C2: with one configured copy of arW and two satisfying
signals, the rule list under the action label of arW counts arW once per
satisfying signal. -/
theorem get_actions_to_take_rule_once_per_satisfying_signal_witness :
    ([arW].count arW = 1) ∧
    ((dictGet (get_actions_to_take mmW [arW]) arW.action_label).count arW)
      = mmW.matching_banked_signals.countP
          (fun bs =>
            action_rule_applies_to_classifications arW bs.classifications) :=
  ⟨by decide,
    get_actions_to_take_rule_once_per_satisfying_signal mmW [arW] arW (by decide)⟩

/-- C7: remove_superseded_actions returns its input unchanged, hence an entry
is in the output exactly when it is in the input, with the same rule list;
in particular an action label with no Action metadata in the catalog is never
removed. -/
theorem remove_superseded_actions_mem_iff (m : ActionDict) :
    ∀ p : ActionLabel × List ActionRule,
      p ∈ remove_superseded_actions m ↔ p ∈ m :=
  fun _ => Iff.rfl

/-- C9: get_actions_to_take is a pure function of the match message and the
rule list, so evaluating it twice on the same inputs yields the same map. -/
theorem get_actions_to_take_deterministic
    (match_message : MatchMessage) (action_rules : List ActionRule) :
    get_actions_to_take match_message action_rules
      = get_actions_to_take match_message action_rules := rfl

/-- The dict update of get_actions_to_take preserves well-formedness when a
rule is filed under its own action label. -/
lemma dictWF_appendEntry {m : ActionDict} (r : ActionRule) (h : dictWF m) :
    dictWF (dictAppendEntry m r.action_label r) := by
  induction m with
  | nil =>
      intro p hp
      simp only [dictAppendEntry, List.mem_singleton] at hp
      subst hp
      refine ⟨by simp, ?_⟩
      intro r0 hr0
      simp only [List.mem_singleton] at hr0
      subst hr0
      rfl
  | cons q rest ih =>
      obtain ⟨k0, l0⟩ := q
      have hrest : dictWF rest := fun p hp => h p (List.mem_cons_of_mem _ hp)
      by_cases hk : k0 = r.action_label
      · subst hk
        intro p hp
        rw [dictAppendEntry, if_pos rfl] at hp
        rcases List.mem_cons.mp hp with hp | hp
        · subst hp
          refine ⟨by simp, ?_⟩
          intro r0 hr0
          rcases List.mem_append.mp hr0 with hr0 | hr0
          · exact (h (r.action_label, l0) (List.mem_cons_self _ _)).2 r0 hr0
          · simp only [List.mem_singleton] at hr0
            subst hr0
            rfl
        · exact h p (List.mem_cons_of_mem _ hp)
      · intro p hp
        rw [dictAppendEntry, if_neg hk] at hp
        rcases List.mem_cons.mp hp with hp | hp
        · subst hp
          exact h (k0, l0) (List.mem_cons_self _ _)
        · exact ih hrest p hp

/-- The inner rule loop preserves well-formedness of the dict. -/
lemma dictWF_evaluate_signal (bs : BankedSignal) :
    ∀ (rs : List ActionRule) (m : ActionDict),
      dictWF m → dictWF (evaluate_signal bs m rs) := by
  intro rs
  induction rs with
  | nil => intro m h; simpa [evaluate_signal] using h
  | cons r rest ih =>
      intro m h
      rw [evaluate_signal]
      apply ih
      by_cases ha : action_rule_applies_to_classifications r bs.classifications
      · simpa [ha] using dictWF_appendEntry r h
      · simpa [ha] using h

/-- The outer signal loop preserves well-formedness of the dict. -/
lemma dictWF_evaluate_signals (rs : List ActionRule) :
    ∀ (signals : List BankedSignal) (m : ActionDict),
      dictWF m → dictWF (evaluate_signals signals rs m) := by
  intro signals
  induction signals with
  | nil => intro m h; simpa [evaluate_signals] using h
  | cons bs rest ih =>
      intro m h
      rw [evaluate_signals]
      exact ih _ (dictWF_evaluate_signal bs rs m h)

/-- C10: every entry of the map returned by get_actions_to_take stores a
non-empty rule list, and every rule stored under an action label has exactly
that label as its action label. -/
theorem get_actions_to_take_entries_nonempty_and_coherent
    (match_message : MatchMessage) (action_rules : List ActionRule)
    (p : ActionLabel × List ActionRule)
    (hp : p ∈ get_actions_to_take match_message action_rules) :
    p.2 ≠ ([] : List ActionRule) ∧ ∀ r ∈ p.2, r.action_label = p.1 := by
  have h := dictWF_evaluate_signals action_rules
    match_message.matching_banked_signals ([] : ActionDict)
    (by intro p hp; simp at hp)
  exact h p hp

/-- Witness for C10: the concrete evaluation of mmW against arW yields the
entry carrying arW twice under its action label, and that entry is non-empty
and coherent. -/
theorem get_actions_to_take_entries_nonempty_and_coherent_witness :
    ((⟨"EnqueueMiniCastleForReview"⟩, [arW, arW]) :
        ActionLabel × List ActionRule).2 ≠ ([] : List ActionRule)
      ∧ ∀ r ∈ ((⟨"EnqueueMiniCastleForReview"⟩, [arW, arW]) :
          ActionLabel × List ActionRule).2,
          r.action_label
            = ((⟨"EnqueueMiniCastleForReview"⟩, [arW, arW]) :
                ActionLabel × List ActionRule).1 :=
  get_actions_to_take_entries_nonempty_and_coherent mmW [arW]
    (⟨"EnqueueMiniCastleForReview"⟩, [arW, arW]) (by decide)

/-- C3: with actionA at priority 1 and no supersessors, and actionB at
priority 2 superseded by A, triggering both A and B should leave only A, but
remove_superseded_actions is a stub returning its input unchanged, so the
entry under B survives, against the docstring of the function itself. -/
theorem remove_superseded_actions_keeps_superseded_label :
    actionA.priority = 1 ∧ actionA.superseded_by = []
      ∧ actionB.priority = 2 ∧ actionB.superseded_by = [actionA.action_label]
      ∧ remove_superseded_actions
          [(actionA.action_label, [ruleA]), (actionB.action_label, [ruleB])]
        = [(actionA.action_label, [ruleA]), (actionB.action_label, [ruleB])]
      ∧ (actionB.action_label, [ruleB]) ∈
          remove_superseded_actions
            [(actionA.action_label, [ruleA]), (actionB.action_label, [ruleB])] := by
  refine ⟨rfl, rfl, rfl, rfl, rfl, ?_⟩
  simp [remove_superseded_actions]

/-- Counterexample for C4: on a batch of three records whose second is
malformed, lambda_handler emits only the messages of record 1: the
ActionMessage the claim requires for record 3 is absent, and the invocation
does not complete, so the failure is not confined to record 2. -/
theorem lambda_handler_batch_counterexample :
    lambda_handler [arW] [some mmW, none, some mm3W]
        = (lambda_handler_record [arW] mmW, false)
      ∧ (∀ e ∈ (lambda_handler [arW] [some mmW, none, some mm3W]).1,
          e ≠ EmittedMessage.action mm3W arW.action_label [arW, arW]
            ∧ e ≠ EmittedMessage.action mm3W arW.action_label [arW])
      ∧ (lambda_handler [arW] [some mmW, none, some mm3W]).2 = false := by
  refine ⟨rfl, by decide, rfl⟩

/-- C4 as amended: a malformed record aborts the batch rather than being
isolated: every record before the first malformed one is processed and its
messages emitted, the exception propagates, no later record is processed, and
the handler does not run to completion. -/
theorem lambda_handler_aborts_after_first_malformed_record
    (action_rules : List ActionRule) (pre : List MatchMessage)
    (rest : List (Option MatchMessage)) :
    lambda_handler action_rules (pre.map some ++ none :: rest)
      = ((pre.map (lambda_handler_record action_rules)).flatten, false) := by
  induction pre with
  | nil => rfl
  | cons mm pre2 ih =>
      simp only [List.map_cons, List.cons_append, lambda_handler,
        List.append_eq, ih, List.flatten_cons]

/-- Counterexample for C5: perform_action does not surface the outcome of the
HTTP dispatch: a POST whose response has status 500 yields the same result as
one whose response has status 200, and it returns success, so a non-success
response is silently ignored rather than propagated. -/
theorem perform_action_ignores_non_success_status :
    postW.perform_action net500 to_aws_jsonW mmW
        = postW.perform_action net200 to_aws_jsonW mmW
      ∧ (postW.perform_action net500 to_aws_jsonW mmW).2 = Except.ok () :=
  ⟨rfl, rfl⟩

/-- C5 as amended: for every variant, a network error raised by the HTTP call
propagates to the caller of perform_action, never caught, while the Response
object is discarded: whenever the call returns a response, perform_action
reports success whatever the status code. -/
theorem perform_action_propagates_raised_error_and_discards_response
    (net : Network) (to_aws_json : MatchMessage → String)
    (match_message : MatchMessage) (name url e : String) (r : Response) :
    ((net ⟨HttpMethod.POST, url, some (to_aws_json match_message)⟩
          = HttpOutcome.raised e →
        ((WebhookPostActionPerformer.mk name url).perform_action net
            to_aws_json match_message).2 = Except.error e)
      ∧ (net ⟨HttpMethod.POST, url, some (to_aws_json match_message)⟩
          = HttpOutcome.response r →
        ((WebhookPostActionPerformer.mk name url).perform_action net
            to_aws_json match_message).2 = Except.ok ()))
    ∧ ((net ⟨HttpMethod.GET, url, none⟩ = HttpOutcome.raised e →
        ((WebhookGetActionPerformer.mk name url).perform_action net
            to_aws_json match_message).2 = Except.error e)
      ∧ (net ⟨HttpMethod.GET, url, none⟩ = HttpOutcome.response r →
        ((WebhookGetActionPerformer.mk name url).perform_action net
            to_aws_json match_message).2 = Except.ok ()))
    ∧ ((net ⟨HttpMethod.PUT, url, some (to_aws_json match_message)⟩
          = HttpOutcome.raised e →
        ((WebhookPutActionPerformer.mk name url).perform_action net
            to_aws_json match_message).2 = Except.error e)
      ∧ (net ⟨HttpMethod.PUT, url, some (to_aws_json match_message)⟩
          = HttpOutcome.response r →
        ((WebhookPutActionPerformer.mk name url).perform_action net
            to_aws_json match_message).2 = Except.ok ()))
    ∧ ((net ⟨HttpMethod.DELETE, url, none⟩ = HttpOutcome.raised e →
        ((WebhookDeleteActionPerformer.mk name url).perform_action net
            to_aws_json match_message).2 = Except.error e)
      ∧ (net ⟨HttpMethod.DELETE, url, none⟩ = HttpOutcome.response r →
        ((WebhookDeleteActionPerformer.mk name url).perform_action net
            to_aws_json match_message).2 = Except.ok ())) := by
  refine ⟨⟨?_, ?_⟩, ⟨?_, ?_⟩, ⟨?_, ?_⟩, ⟨?_, ?_⟩⟩ <;>
    · intro h
      simp [WebhookPostActionPerformer.perform_action,
        WebhookGetActionPerformer.perform_action,
        WebhookPutActionPerformer.perform_action,
        WebhookDeleteActionPerformer.perform_action,
        WebhookActionPerformer.perform_action,
        WebhookPostActionPerformer.call, WebhookGetActionPerformer.call,
        WebhookPutActionPerformer.call, WebhookDeleteActionPerformer.call, h]

/-- Witness for the amended C5: on a network that raises a connection error,
the concrete POST performer propagates exactly that error. -/
theorem perform_action_propagates_raised_error_witness :
    (postW.perform_action netRaise to_aws_jsonW mmW).2
      = Except.error "connection refused" :=
  (perform_action_propagates_raised_error_and_discards_response netRaise
      to_aws_jsonW mmW "NotifyWebhook" "https://example.test/hook"
      "connection refused" ⟨200⟩).1.1 rfl

/-- C8: each invocation of perform_action issues exactly one outbound HTTP
request to the configured url: the POST and PUT variants send the serialized
match message as the body, the GET and DELETE variants send no body. -/
theorem perform_action_single_request_and_body (net : Network)
    (to_aws_json : MatchMessage → String) (match_message : MatchMessage)
    (name url : String) :
    ((WebhookPostActionPerformer.mk name url).perform_action net to_aws_json
          match_message).1
        = [⟨HttpMethod.POST, url, some (to_aws_json match_message)⟩]
      ∧ ((WebhookPutActionPerformer.mk name url).perform_action net to_aws_json
            match_message).1
          = [⟨HttpMethod.PUT, url, some (to_aws_json match_message)⟩]
      ∧ ((WebhookGetActionPerformer.mk name url).perform_action net to_aws_json
            match_message).1
          = [⟨HttpMethod.GET, url, none⟩]
      ∧ ((WebhookDeleteActionPerformer.mk name url).perform_action net
            to_aws_json match_message).1
          = [⟨HttpMethod.DELETE, url, none⟩] :=
  ⟨rfl, rfl, rfl, rfl⟩

end Hmalib
